import Mathlib

/-!
Verification of the pyamg Krylov solver core (`pyamg/krylov/_cg.py`,
`_cr.py`, `_steepest_descent.py`, `minimal_residual.py`) against its
natural-language specification.

The four solvers are shallowly embedded over exact rationals: vectors are
`List ℚ`, the operators `A` and `M` are opaque functions `List ℚ → List ℚ`
(mirroring the source, which only ever applies them), and the imported
norm routine (`pyamg.util.linalg.norm` / `numpy.linalg.norm`, not part of
the source under verification) is an explicit function parameter `normv`
(`sqrtq` models `numpy.sqrt` where `_cr.py` applies it to a scalar).
Each solver's `while True:` loop is embedded as a step function
`σ → KResult ⊕ σ` (one full loop body: either a `return` from inside the
loop, or the next state) driven by a fuel-indexed runner `krun`.  The fuel
is always the iteration bound `maxiter`, and since every body tests
`iter == maxiter` before looping, the fuel-exhaustion branch of `krun` is
unreachable in every actual call (the invariant `fuel + iter = maxiter`
makes this explicit in the proofs).

The caller-supplied `residuals` list is modelled by the `residuals0`
argument (its contents on entry) and the `res` field of the result (its
contents on exit); the source's `residuals is None` case merely skips the
list writes and is not needed by any claim.  The per-iteration `callback`
is modelled by the trace `cbs` of the vectors it would be invoked on.
`postprocess`/`make_system` belong to the external system adapter and are
modelled as the identity on the embedded data.
-/

namespace PyamgKrylov

/-- Vectors: the embedded `numpy` 1-D arrays, with exact rational entries. -/
abbrev Qv := List ℚ

/-- Elementwise vector addition (`x + y`). -/
def vadd (v w : Qv) : Qv := List.zipWith (· + ·) v w

/-- Elementwise vector subtraction (`x - y`). -/
def vsub (v w : Qv) : Qv := List.zipWith (· - ·) v w

/-- Scalar times vector (`alpha * v`). -/
def smul (c : ℚ) (v : Qv) : Qv := v.map (fun t => c * t)

/-- `numpy.inner(conjugate(v), w)`: over the rationals conjugation is the
identity, so this is the plain dot product. -/
def dotc (v w : Qv) : ℚ := (List.zipWith (· * ·) v w).sum

/-- A concrete 2-norm stand-in used by witnesses: the sum of absolute
values of the entries (any norm function can be passed for `normv`). -/
def sumabs (v : Qv) : ℚ := (v.map (fun t => |t|)).sum

/-- The identity operator, used by concrete witness inputs. -/
def idv : Qv → Qv := fun v => v

/-- What a solver call returns, together with its observable effects:
the solution iterate `x`, the integer status, the final contents `res` of
the caller's residual-history list, and the trace `cbs` of vectors the
per-iteration callback was invoked on. -/
structure KResult where
  x : Qv
  status : Int
  res : List ℚ
  cbs : List Qv
deriving DecidableEq, Repr

/-- Generic loop runner: applies the loop body `body` until it returns
(`Sum.inl`) or the fuel runs out.  `halt` gives the (provably unreachable,
given fuel `maxiter`) fuel-exhaustion value. -/
def krun {σ : Type} (body : σ → KResult ⊕ σ) (halt : σ → KResult) : Nat → σ → KResult
  | 0, s => halt s
  | f + 1, s =>
    match body s with
    | Sum.inl k => k
    | Sum.inr t => krun body halt f t

/-! ## Conjugate Gradient (`_cg.py`) -/

/-- Loop state of `cg`: the Python locals that are live across loop
iterations (`z` is recomputed before use each iteration and is not
carried). -/
structure CGState where
  x : Qv
  r : Qv
  p : Qv
  rz : ℚ
  iter : Nat
  res : List ℚ
  cbs : List Qv
deriving DecidableEq, Repr

/-- `_cg.py` line 115: `recompute_r = 8`. -/
def cg_recompute_r : Nat := 8

/-- `_cg.py` lines 120-146: matrix apply, curvature check on `A`, the
`x` update, the residual update branch, the preconditioner apply and its
curvature check, and the search-direction update. -/
def cg_advance (A M : Qv → Qv) (b : Qv) (s : CGState) : KResult ⊕ CGState :=
  let Ap := A s.p
  let rz_old := s.rz
  let pAp := dotc Ap s.p
  if pAp < 0 then Sum.inl ⟨s.x, -1, s.res, s.cbs⟩
  else
    let alpha := s.rz / pAp
    let x := vadd s.x (smul alpha s.p)
    let r := if s.iter % cg_recompute_r ≠ 0 ∧ 0 < s.iter
      then vsub s.r (smul alpha Ap)
      else vsub b (A x)
    let z := M r
    let rz := dotc r z
    if rz < 0 then Sum.inl ⟨x, -1, s.res, s.cbs⟩
    else
      let beta := rz / rz_old
      let p := vadd (smul beta s.p) z
      Sum.inr ⟨x, r, p, rz, s.iter, s.res, s.cbs⟩

/-- `_cg.py` lines 148-167: `iter += 1`, the history append, the callback,
and the convergence / singular-preconditioner / maxiter checks, in source
order. -/
def cg_finish (normv : Qv → ℚ) (tol : ℚ) (maxiterN : Nat) (s : CGState) : KResult ⊕ CGState :=
  let iter := s.iter + 1
  let normr := normv s.r
  let res := s.res ++ [normr]
  let cbs := s.cbs ++ [s.x]
  if normr < tol then Sum.inl ⟨s.x, 0, res, cbs⟩
  else if s.rz = 0 then Sum.inl ⟨s.x, -1, res, cbs⟩
  else if iter = maxiterN then Sum.inl ⟨s.x, (iter : Int), res, cbs⟩
  else Sum.inr ⟨s.x, s.r, s.p, s.rz, iter, res, cbs⟩

/-- One full iteration of the `cg` loop body. -/
def cg_body (A M : Qv → Qv) (b : Qv) (normv : Qv → ℚ) (tol : ℚ) (maxiterN : Nat)
    (s : CGState) : KResult ⊕ CGState :=
  match cg_advance A M b s with
  | Sum.inl k => Sum.inl k
  | Sum.inr t => cg_finish normv tol maxiterN t

/-- Fuel-exhaustion value for the `cg` runner (unreachable with fuel
`maxiter`, since the body tests `iter == maxiter`). -/
def cg_halt (s : CGState) : KResult := ⟨s.x, (s.iter : Int), s.res, s.cbs⟩

/-- `_cg.py` lines 96-119 followed by the loop: setup, the initial
history entry (`residuals[:] = [normr]`, which replaces any contents the
caller's list had), the pre-loop convergence check against the unscaled
`tol`, the rescaling `tol = tol*normr`, and the iteration. -/
def cg_solve (A M : Qv → Qv) (b x0 : Qv) (tol0 : ℚ) (normv : Qv → ℚ) (maxiterN : Nat) :
    KResult :=
  let x := x0
  let r := vsub b (A x)
  let z := M r
  let p := z
  let rz := dotc r z
  let normr := normv r
  let res := [normr]
  if normr < tol0 then ⟨x, 0, res, []⟩
  else
    let tol := if normr ≠ 0 then tol0 * normr else tol0
    krun (cg_body A M b normv tol maxiterN) cg_halt maxiterN ⟨x, r, p, rz, 0, res, []⟩

/-- `cg(A, b, x0, tol, maxiter, M, callback, residuals)`: the maxiter
validation (`maxiter = int(1.3*len(b)) + 2` when unsupplied, `ValueError`
when `maxiter < 1`) followed by the solve.  `residuals0` is the content of
the caller's residual list on entry; the source overwrites it. -/
def cg (A M : Qv → Qv) (b x0 : Qv) (tol : ℚ) (maxiter : Option Int) (normv : Qv → ℚ)
    (residuals0 : List ℚ) : Except String KResult :=
  match maxiter with
  | none => Except.ok (cg_solve A M b x0 tol normv (Int.toNat (13 * (b.length : Int) / 10 + 2)))
  | some m =>
    if m < 1 then Except.error ("Number of iterations must be positive")
    else Except.ok (cg_solve A M b x0 tol normv m.toNat)

/-! ## Minimal Residual (`minimal_residual.py`) -/

/-- Loop state of `minimal_residual`.  The `normr` field is the Python
local `normr`, set once before the loop; it is a state field (rather than
a fixed parameter) precisely so that its non-reassignment inside the loop
is a provable property of the embedding and not a modelling assumption. -/
structure MRState where
  x : Qv
  r : Qv
  normr : ℚ
  iter : Nat
  res : List ℚ
  cbs : List Qv
deriving DecidableEq, Repr

/-- `minimal_residual.py` line 111: `recompute_r = 50`. -/
def mr_recompute_r : Nat := 50

/-- `minimal_residual.py` lines 115-143: one full iteration.  `iter` is
incremented at the top; note the residual branch performs the exact
recomputation `r = M*(b - A*x)` when `mod(iter, recompute_r)` is nonzero
and the cheap update `r = r - alpha*p` when `iter` is a multiple of 50,
and the convergence check reads the `normr` field set before the loop. -/
def mr_body (A M : Qv → Qv) (b : Qv) (normv : Qv → ℚ) (tol : ℚ) (maxiterN : Nat)
    (s : MRState) : KResult ⊕ MRState :=
  let iter := s.iter + 1
  let p := M (A s.r)
  let rMAr := dotc p s.r
  if rMAr < 0 then Sum.inl ⟨s.x, -1, s.res, s.cbs⟩
  else
    let alpha := rMAr / dotc p p
    let x := vadd s.x (smul alpha s.r)
    let r := if iter % mr_recompute_r ≠ 0 ∧ 0 < iter
      then M (vsub b (A x))
      else vsub s.r (smul alpha p)
    let res := s.res ++ [normv r]
    let cbs := s.cbs ++ [x]
    if s.normr < tol then Sum.inl ⟨x, 0, res, cbs⟩
    else if iter = maxiterN then Sum.inl ⟨x, (iter : Int), res, cbs⟩
    else Sum.inr ⟨x, r, s.normr, iter, res, cbs⟩

/-- Fuel-exhaustion value for the `minimal_residual` runner (unreachable
with fuel `maxiter`). -/
def mr_halt (s : MRState) : KResult := ⟨s.x, (s.iter : Int), s.res, s.cbs⟩

/-- `minimal_residual.py` lines 96-113 followed by the loop: the
preconditioned initial residual `r = M*(b - A*x)`, its norm, the history
reset, the pre-loop check against the unscaled `tol`, the rescaling by
`||r_0||_M`, and the iteration. -/
def mr_solve (A M : Qv → Qv) (b x0 : Qv) (tol0 : ℚ) (normv : Qv → ℚ) (maxiterN : Nat) :
    KResult :=
  let x := x0
  let r := M (vsub b (A x))
  let normr := normv r
  let res := [normr]
  if normr < tol0 then ⟨x, 0, res, []⟩
  else
    let tol := if normr ≠ 0 then tol0 * normr else tol0
    krun (mr_body A M b normv tol maxiterN) mr_halt maxiterN ⟨x, r, normr, 0, res, []⟩

/-- `minimal_residual(A, b, x0, tol, maxiter, M, callback, residuals)`:
maxiter validation (default `2*len(b)`, `ValueError` when below 1), then
the solve. -/
def minimal_residual (A M : Qv → Qv) (b x0 : Qv) (tol : ℚ) (maxiter : Option Int)
    (normv : Qv → ℚ) (residuals0 : List ℚ) : Except String KResult :=
  match maxiter with
  | none => Except.ok (mr_solve A M b x0 tol normv (2 * b.length))
  | some m =>
    if m < 1 then Except.error ("Number of iterations must be positive")
    else Except.ok (mr_solve A M b x0 tol normv m.toNat)

/-! ## Steepest Descent (`_steepest_descent.py`) -/

/-- Loop state of `steepest_descent`. -/
structure SDState where
  x : Qv
  r : Qv
  z : Qv
  rz : ℚ
  it : Nat
  res : List ℚ
  cbs : List Qv
deriving DecidableEq, Repr

/-- `_steepest_descent.py` line 114: `recompute_r = 50`. -/
def sd_recompute_r : Nat := 50

/-- `_steepest_descent.py` lines 106-109 and 150-153: the stopping
threshold, recomputed from the current `x` when `normA is not None`. -/
def sd_rtol (normv : Qv → ℚ) (normA : Option ℚ) (normb tol : ℚ) (x : Qv) : ℚ :=
  match normA with
  | some na => tol * (na * normv x + normb)
  | none => tol * normb

/-- `_steepest_descent.py` lines 119-140: curvature check on `A`, the
`x` update, `it += 1`, the residual branch (exact recompute when
`mod(it, 50)` is nonzero, cheap update when `it` is a multiple of 50),
the preconditioner apply and its curvature check. -/
def sd_advance (A M : Qv → Qv) (b : Qv) (s : SDState) : KResult ⊕ SDState :=
  let q := A s.z
  let zAz := dotc s.z q
  if zAz < 0 then Sum.inl ⟨s.x, -1, s.res, s.cbs⟩
  else
    let alpha := s.rz / zAz
    let x := vadd s.x (smul alpha s.z)
    let it := s.it + 1
    let r := if it % sd_recompute_r ≠ 0 ∧ 0 < it
      then vsub b (A x)
      else vsub s.r (smul alpha q)
    let z := M r
    let rz := dotc r z
    if rz < 0 then Sum.inl ⟨x, -1, s.res, s.cbs⟩
    else Sum.inr ⟨x, r, z, rz, it, s.res, s.cbs⟩

/-- `_steepest_descent.py` lines 142-165: history append, callback, the
per-iteration `rtol` recomputation, and the convergence /
singular-preconditioner / maxiter checks, in source order. -/
def sd_finish (normv : Qv → ℚ) (normA : Option ℚ) (normb tol : ℚ) (maxiterN : Nat)
    (s : SDState) : KResult ⊕ SDState :=
  let normr := normv s.r
  let res := s.res ++ [normr]
  let cbs := s.cbs ++ [s.x]
  let rtol := sd_rtol normv normA normb tol s.x
  if normr < rtol then Sum.inl ⟨s.x, 0, res, cbs⟩
  else if s.rz = 0 then Sum.inl ⟨s.x, -1, res, cbs⟩
  else if s.it = maxiterN then Sum.inl ⟨s.x, (s.it : Int), res, cbs⟩
  else Sum.inr ⟨s.x, s.r, s.z, s.rz, s.it, res, cbs⟩

/-- One full iteration of the `steepest_descent` loop body. -/
def sd_body (A M : Qv → Qv) (b : Qv) (normv : Qv → ℚ) (normA : Option ℚ)
    (normb tol : ℚ) (maxiterN : Nat) (s : SDState) : KResult ⊕ SDState :=
  match sd_advance A M b s with
  | Sum.inl k => Sum.inl k
  | Sum.inr t => sd_finish normv normA normb tol maxiterN t

/-- Fuel-exhaustion value for the `steepest_descent` runner. -/
def sd_halt (s : SDState) : KResult := ⟨s.x, (s.it : Int), s.res, s.cbs⟩

/-- `_steepest_descent.py` lines 91-116 followed by the loop.  Note the
zero-`normb` replacement `if normb == 0.0 and normA:` tests Python
truthiness of the float `normA` (false both for `None` and for `0.0`),
while the `rtol` selection tests `normA is not None`. -/
def sd_solve (A M : Qv → Qv) (b x0 : Qv) (tol0 : ℚ) (normA : Option ℚ)
    (normv : Qv → ℚ) (maxiterN : Nat) : KResult :=
  let x := x0
  let r := vsub b (A x)
  let z := M r
  let rz := dotc r z
  let normr := normv r
  let res := [normr]
  let normb0 := normv b
  let normb := if normb0 = 0 ∧ normA.getD 0 ≠ 0 then 1 else normb0
  let rtol := sd_rtol normv normA normb tol0 x
  if normr < rtol then ⟨x, 0, res, []⟩
  else
    krun (sd_body A M b normv normA normb tol0 maxiterN) sd_halt maxiterN
      ⟨x, r, z, rz, 0, res, []⟩

/-- `steepest_descent(A, b, x0, tol, normA, maxiter, M, callback,
residuals)`: maxiter validation (default `len(b)`), then the solve. -/
def steepest_descent (A M : Qv → Qv) (b x0 : Qv) (tol : ℚ) (normA : Option ℚ)
    (maxiter : Option Int) (normv : Qv → ℚ) (residuals0 : List ℚ) :
    Except String KResult :=
  match maxiter with
  | none => Except.ok (sd_solve A M b x0 tol normA normv b.length)
  | some m =>
    if m < 1 then Except.error ("Number of iterations must be positive")
    else Except.ok (sd_solve A M b x0 tol normA normv m.toNat)

/-! ## Conjugate Residual (`_cr.py`) -/

/-- The concrete representation behind the operator wrapper's `A.A`
attribute, as far as `_cr.py` inspects it for `criteria='rr+'`: a sparse
matrix (whose entry list is `A.A.data`), a dense `ndarray` (flattened by
`np.ravel`), or anything else (for which the Frobenius norm is
unavailable). -/
inductive MatRep where
  | sparse (data : List ℚ)
  | ndarray (entries : List ℚ)
  | other
deriving DecidableEq, Repr

/-- Loop state of `cr`: `z`, `Ap` and `rAz` are live across the stage
boundary and across iterations; `rtol` is carried because the in-loop
criteria dispatch has no else branch and would keep its previous value. -/
structure CRState where
  x : Qv
  r : Qv
  z : Qv
  p : Qv
  ap : Qv
  rAz : ℚ
  rtol : ℚ
  it : Nat
  res : List ℚ
  cbs : List Qv
deriving DecidableEq, Repr

/-- `_cr.py` line 133: `recompute_r = 8`. -/
def cr_recompute_r : Nat := 8

/-- `_cr.py` lines 143-164: the `x` update, the residual branch, the
preconditioner apply, and the incremental `p` / `Ap` updates.  There is
no early return in this part (no curvature check on `A` in CR). -/
def cr_advance (A M : Qv → Qv) (b : Qv) (s : CRState) : CRState :=
  let rAz_old := s.rAz
  let alpha := s.rAz / dotc s.ap s.ap
  let x := vadd s.x (smul alpha s.p)
  let r := if s.it % cr_recompute_r ≠ 0 ∧ 0 < s.it
    then vsub s.r (smul alpha s.ap)
    else vsub b (A x)
  let z := M r
  let az := A z
  let rAz := dotc r az
  let beta := rAz / rAz_old
  let p := vadd (smul beta s.p) z
  let ap := vadd (smul beta s.ap) az
  ⟨x, r, z, p, ap, rAz, s.rtol, s.it, s.res, s.cbs⟩

/-- `_cr.py` lines 166-196: `it += 1`, `zz`, the history append, the
callback, the per-iteration stopping-criteria dispatch, and the
convergence / singular-preconditioner / maxiter checks, in source
order. -/
def cr_finish (normv : Qv → ℚ) (criteria : String) (tol normb normA normMb : ℚ)
    (maxiterN : Nat) (s : CRState) : KResult ⊕ CRState :=
  let it := s.it + 1
  let zz := dotc s.z s.z
  let normr0 := normv s.r
  let res := s.res ++ [normr0]
  let cbs := s.cbs ++ [s.x]
  let nr := if criteria = "MrMr" then normv s.z else normr0
  let rtol2 :=
    if criteria = "rr" then tol * normb
    else if criteria = "rr+" then tol * (normA * normv s.x + normb)
    else if criteria = "MrMr" then tol * normMb
    else s.rtol
  if nr < rtol2 then Sum.inl ⟨s.x, 0, res, cbs⟩
  else if zz = 0 then Sum.inl ⟨s.x, -1, res, cbs⟩
  else if it = maxiterN then Sum.inl ⟨s.x, (it : Int), res, cbs⟩
  else Sum.inr ⟨s.x, s.r, s.z, s.p, s.ap, s.rAz, rtol2, it, res, cbs⟩

/-- One full iteration of the `cr` loop body. -/
def cr_body (A M : Qv → Qv) (b : Qv) (normv : Qv → ℚ) (criteria : String)
    (tol normb normA normMb : ℚ) (maxiterN : Nat) (s : CRState) : KResult ⊕ CRState :=
  cr_finish normv criteria tol normb normA normMb maxiterN (cr_advance A M b s)

/-- Fuel-exhaustion value for the `cr` runner. -/
def cr_halt (s : CRState) : KResult := ⟨s.x, (s.it : Int), s.res, s.cbs⟩

/-- `_cr.py` lines 129-141: the pre-loop convergence check and the
auxiliary vectors `Az`, `rAz`, `Ap`, then the loop.  `normA` and `normMb`
are passed as 0 for the criteria that never read them. -/
def cr_go (A M : Qv → Qv) (b x r z p : Qv) (tol : ℚ) (criteria : String)
    (normv : Qv → ℚ) (normb normA normMb rtol normr : ℚ) (res : List ℚ)
    (maxiterN : Nat) : KResult :=
  if normr < rtol then ⟨x, 0, res, []⟩
  else
    let az := A z
    let rAz := dotc r az
    let ap := A p
    krun (cr_body A M b normv criteria tol normb normA normMb maxiterN) cr_halt maxiterN
      ⟨x, r, z, p, ap, rAz, rtol, 0, res, []⟩

/-- `_cr.py` lines 96-127: setup, the history reset, the zero-`normb`
replacement, and the stopping-criteria dispatch with its two `ValueError`
cases (`'rr+'` on a representation with no accessible entrywise norm, and
an unrecognized criteria string). -/
def cr_solve (A : Qv → Qv) (Arep : MatRep) (M : Qv → Qv) (b x0 : Qv) (tol : ℚ)
    (criteria : String) (normv : Qv → ℚ) (sqrtq : ℚ → ℚ) (maxiterN : Nat) :
    Except String KResult :=
  let x := x0
  let r := vsub b (A x)
  let z := M r
  let p := z
  let zz := dotc z z
  let normr := normv r
  let res := [normr]
  let normb0 := normv b
  let normb := if normb0 = 0 then 1 else normb0
  if criteria = "rr" then
    Except.ok (cr_go A M b x r z p tol criteria normv normb 0 0 (tol * normb) normr res maxiterN)
  else if criteria = "rr+" then
    match Arep with
    | MatRep.sparse d =>
      Except.ok (cr_go A M b x r z p tol criteria normv normb (normv d) 0
        (tol * (normv d * normv x + normb)) normr res maxiterN)
    | MatRep.ndarray e =>
      Except.ok (cr_go A M b x r z p tol criteria normv normb (normv e) 0
        (tol * (normv e * normv x + normb)) normr res maxiterN)
    | MatRep.other =>
      Except.error ("Unable to use ||A||_F with the current matrix format.")
  else if criteria = "MrMr" then
    Except.ok (cr_go A M b x r z p tol criteria normv normb 0 (normv (M b))
      (tol * normv (M b)) (sqrtq zz) res maxiterN)
  else Except.error ("Invalid stopping criteria.")

/-- `cr(A, b, x0, tol, criteria, maxiter, M, callback, residuals)`:
maxiter validation (default `int(1.3*len(b)) + 2`), then the setup with
its criteria validation and the solve. -/
def cr (A : Qv → Qv) (Arep : MatRep) (M : Qv → Qv) (b x0 : Qv) (tol : ℚ)
    (criteria : String) (maxiter : Option Int) (normv : Qv → ℚ) (sqrtq : ℚ → ℚ)
    (residuals0 : List ℚ) : Except String KResult :=
  match maxiter with
  | none => cr_solve A Arep M b x0 tol criteria normv sqrtq
      (Int.toNat (13 * (b.length : Int) / 10 + 2))
  | some m =>
    if m < 1 then Except.error ("Number of iterations must be positive")
    else cr_solve A Arep M b x0 tol criteria normv sqrtq m.toNat

/-! ## Concrete operators used by witnesses and counterexamples -/

/-- A nonlinear one-dimensional operator `v ↦ [v₀² + 1]`.  The solvers
apply `A` opaquely and never check linearity, so this is a legal input;
it makes the cheap residual update observably different from the exact
recomputation. -/
def opSqPlusOne : Qv → Qv := fun v => [(v.getD 0 0) * (v.getD 0 0) + 1]

/-- The negation operator, an indefinite (negative-definite) matrix. -/
def negv : Qv → Qv := fun v => v.map (fun t => -t)

/-- A concrete scalar function for the `sqrtq` parameter in witnesses
(the claims never depend on its values). -/
def idq : ℚ → ℚ := fun t => t

/-- Invariant principle for `krun`: if `Q` is preserved by the body and
forces `R` on every in-loop return as well as on the fuel-exhaustion
value, then every run from a `Q` state satisfies `R`. -/
theorem krun_inv {σ : Type} (body : σ → KResult ⊕ σ) (halt : σ → KResult)
    (Q : Nat → σ → Prop) (R : KResult → Prop)
    (hb : ∀ f s, Q (f + 1) s →
      (∀ k, body s = Sum.inl k → R k) ∧ (∀ t, body s = Sum.inr t → Q f t))
    (hh : ∀ s, Q 0 s → R (halt s)) :
    ∀ f s, Q f s → R (krun body halt f s) := by
  intro f
  induction f with
  | zero =>
    intro s hq
    simpa [krun] using hh s hq
  | succ f ih =>
    intro s hq
    have h := hb f s hq
    cases hcase : body s with
    | inl k => simpa [krun, hcase] using h.1 k hcase
    | inr t => simpa [krun, hcase] using ih t (h.2 t hcase)

/-! ## Inversion lemmas for the loop bodies

One lemma per constructor of each stage's result, recording which branch
conditions produced it and what the output fields are. -/

theorem cg_advance_inl {A M : Qv → Qv} {b : Qv} {s : CGState} {k : KResult}
    (h : cg_advance A M b s = Sum.inl k) :
    k.status = -1 ∧ k.res = s.res ∧ k.cbs = s.cbs := by
  simp only [cg_advance] at h
  split_ifs at h <;> cases h <;> exact ⟨rfl, rfl, rfl⟩

theorem cg_advance_inr {A M : Qv → Qv} {b : Qv} {s : CGState} {t : CGState}
    (h : cg_advance A M b s = Sum.inr t) :
    t.iter = s.iter ∧ t.res = s.res ∧ t.cbs = s.cbs := by
  simp only [cg_advance] at h
  split_ifs at h <;> cases h <;> exact ⟨rfl, rfl, rfl⟩

theorem cg_finish_inl {normv : Qv → ℚ} {tol : ℚ} {mN : Nat} {s : CGState} {k : KResult}
    (h : cg_finish normv tol mN s = Sum.inl k) :
    k.x = s.x ∧ k.res = s.res ++ [normv s.r] ∧ k.cbs = s.cbs ++ [s.x] ∧
      ((k.status = 0 ∧ normv s.r < tol) ∨
        (k.status = -1 ∧ ¬ normv s.r < tol ∧ s.rz = 0) ∨
        (k.status = ((s.iter + 1 : Nat) : Int) ∧ s.iter + 1 = mN ∧ ¬ normv s.r < tol)) := by
  simp only [cg_finish] at h
  split_ifs at h <;> cases h <;> simp_all

theorem cg_finish_inr {normv : Qv → ℚ} {tol : ℚ} {mN : Nat} {s : CGState} {t : CGState}
    (h : cg_finish normv tol mN s = Sum.inr t) :
    t.iter = s.iter + 1 ∧ t.res = s.res ++ [normv s.r] ∧ t.iter ≠ mN ∧
      ¬ normv s.r < tol := by
  simp only [cg_finish] at h
  split_ifs at h <;> cases h <;> simp_all

theorem sd_advance_inl {A M : Qv → Qv} {b : Qv} {s : SDState} {k : KResult}
    (h : sd_advance A M b s = Sum.inl k) :
    k.status = -1 ∧ k.res = s.res ∧ k.cbs = s.cbs := by
  simp only [sd_advance] at h
  split_ifs at h <;> cases h <;> exact ⟨rfl, rfl, rfl⟩

theorem sd_advance_inr {A M : Qv → Qv} {b : Qv} {s : SDState} {t : SDState}
    (h : sd_advance A M b s = Sum.inr t) :
    t.it = s.it + 1 ∧ t.res = s.res ∧ t.cbs = s.cbs := by
  simp only [sd_advance] at h
  split_ifs at h <;> cases h <;> exact ⟨rfl, rfl, rfl⟩

theorem sd_finish_inl {normv : Qv → ℚ} {normA : Option ℚ} {normb tol : ℚ} {mN : Nat}
    {s : SDState} {k : KResult} (h : sd_finish normv normA normb tol mN s = Sum.inl k) :
    k.x = s.x ∧ k.res = s.res ++ [normv s.r] ∧
      ((k.status = 0) ∨
        (k.status = -1 ∧ s.rz = 0 ∧ ¬ normv s.r < sd_rtol normv normA normb tol s.x) ∨
        (k.status = (s.it : Int) ∧ s.it = mN)) := by
  simp only [sd_finish] at h
  split_ifs at h <;> cases h <;> simp_all [not_lt]

theorem sd_finish_inr {normv : Qv → ℚ} {normA : Option ℚ} {normb tol : ℚ} {mN : Nat}
    {s : SDState} {t : SDState} (h : sd_finish normv normA normb tol mN s = Sum.inr t) :
    t.it = s.it ∧ t.res = s.res ++ [normv s.r] ∧ s.it ≠ mN := by
  simp only [sd_finish] at h
  split_ifs at h <;> cases h <;> simp_all

theorem mr_body_inl {A M : Qv → Qv} {b : Qv} {normv : Qv → ℚ} {tol : ℚ} {mN : Nat}
    {s : MRState} {k : KResult} (h : mr_body A M b normv tol mN s = Sum.inl k) :
    (k.status = -1 ∧ k.res = s.res) ∨
      (∃ v, k.res = s.res ++ [v] ∧
        ((k.status = 0 ∧ s.normr < tol) ∨
          (k.status = ((s.iter + 1 : Nat) : Int) ∧ s.iter + 1 = mN ∧ ¬ s.normr < tol))) := by
  simp only [mr_body] at h
  split_ifs at h <;> cases h <;> simp_all

theorem mr_body_inr {A M : Qv → Qv} {b : Qv} {normv : Qv → ℚ} {tol : ℚ} {mN : Nat}
    {s : MRState} {t : MRState} (h : mr_body A M b normv tol mN s = Sum.inr t) :
    t.normr = s.normr ∧ t.iter = s.iter + 1 ∧ (∃ v, t.res = s.res ++ [v]) ∧
      ¬ s.normr < tol ∧ s.iter + 1 ≠ mN := by
  simp only [mr_body] at h
  split_ifs at h <;> cases h <;> simp_all

theorem cr_advance_fields (A M : Qv → Qv) (b : Qv) (s : CRState) :
    (cr_advance A M b s).it = s.it ∧ (cr_advance A M b s).res = s.res ∧
      (cr_advance A M b s).cbs = s.cbs := ⟨rfl, rfl, rfl⟩

theorem cr_finish_inl {normv : Qv → ℚ} {criteria : String} {tol normb normA normMb : ℚ}
    {mN : Nat} {s : CRState} {k : KResult}
    (h : cr_finish normv criteria tol normb normA normMb mN s = Sum.inl k) :
    k.x = s.x ∧ k.res = s.res ++ [normv s.r] ∧
      ((k.status = 0) ∨
        (k.status = -1 ∧ dotc s.z s.z = 0 ∧
          ¬ (if criteria = "MrMr" then normv s.z else normv s.r) <
            (if criteria = "rr" then tol * normb
             else if criteria = "rr+" then tol * (normA * normv s.x + normb)
             else if criteria = "MrMr" then tol * normMb
             else s.rtol)) ∨
        (k.status = ((s.it + 1 : Nat) : Int) ∧ s.it + 1 = mN)) := by
  simp only [cr_finish] at h
  split_ifs at h <;> cases h <;> simp_all [not_lt]

theorem cr_finish_inr {normv : Qv → ℚ} {criteria : String} {tol normb normA normMb : ℚ}
    {mN : Nat} {s : CRState} {t : CRState}
    (h : cr_finish normv criteria tol normb normA normMb mN s = Sum.inr t) :
    t.it = s.it + 1 ∧ t.res = s.res ++ [normv s.r] ∧ s.it + 1 ≠ mN := by
  simp only [cr_finish] at h
  split_ifs at h <;> cases h <;> simp_all

/-! ## History invariants of the four solve loops

Each lemma states that the first history entry is the initial residual
norm and that a status equal to `maxiter` comes with exactly
`1 + maxiter` entries. -/

theorem cg_solve_history (A M : Qv → Qv) (b x0 : Qv) (tol : ℚ) (normv : Qv → ℚ)
    (mN : Nat) (hm : 1 ≤ mN) :
    (cg_solve A M b x0 tol normv mN).res.head? = some (normv (vsub b (A x0))) ∧
      ((cg_solve A M b x0 tol normv mN).status = (mN : Int) →
        (cg_solve A M b x0 tol normv mN).res.length = mN + 1) := by
  by_cases hpre : normv (vsub b (A x0)) < tol
  · simp only [cg_solve, hpre, if_true]
    exact ⟨rfl, fun habs => by omega⟩
  · simp only [cg_solve, hpre, if_false]
    refine krun_inv _ cg_halt
      (fun f s => s.res.head? = some (normv (vsub b (A x0))) ∧
        s.res.length = s.iter + 1 ∧ f + s.iter = mN)
      (fun k => k.res.head? = some (normv (vsub b (A x0))) ∧
        (k.status = (mN : Int) → k.res.length = mN + 1)) ?_ ?_ mN _ ⟨rfl, rfl, rfl⟩
    · intro f s hq
      obtain ⟨hq1, hq2, hq3⟩ := hq
      have hne : s.res ≠ [] := by
        intro hnil
        rw [hnil] at hq1
        simp at hq1
      constructor
      · intro k hk
        cases hadv : cg_advance A M b s with
        | inl k2 =>
          simp only [cg_body, hadv, Sum.inl.injEq] at hk
          subst hk
          obtain ⟨hst, hres, _⟩ := cg_advance_inl hadv
          refine ⟨hres ▸ hq1, fun habs => ?_⟩
          rw [hst] at habs
          omega
        | inr t =>
          simp only [cg_body, hadv] at hk
          obtain ⟨hti, htres, _⟩ := cg_advance_inr hadv
          obtain ⟨hkx, hkres, hkcbs, hdisj⟩ := cg_finish_inl hk
          have hres' : k.res = s.res ++ [normv t.r] := by rw [hkres, htres]
          constructor
          · rw [hres', List.head?_append_of_ne_nil s.res hne]
            exact hq1
          · intro habs
            rcases hdisj with ⟨h0, _⟩ | ⟨h1, _⟩ | ⟨hof, hit, _⟩
            · rw [h0] at habs
              omega
            · rw [h1] at habs
              omega
            · rw [hres', List.length_append, List.length_singleton, hq2]
              omega
      · intro t hk
        cases hadv : cg_advance A M b s with
        | inl k2 =>
          simp only [cg_body, hadv] at hk
          exact Sum.noConfusion hk
        | inr t2 =>
          simp only [cg_body, hadv] at hk
          obtain ⟨h2i, h2res, _⟩ := cg_advance_inr hadv
          obtain ⟨hti, htres, hne2, _⟩ := cg_finish_inr hk
          have hres' : t.res = s.res ++ [normv t2.r] := by rw [htres, h2res]
          refine ⟨?_, ?_, ?_⟩
          · rw [hres', List.head?_append_of_ne_nil s.res hne]
            exact hq1
          · simp only [hres', List.length_append, List.length_singleton, hq2, hti, h2i]
          · omega
    · intro s hq
      obtain ⟨hq1, hq2, hq3⟩ := hq
      refine ⟨hq1, fun _ => ?_⟩
      have hres : (cg_halt s).res = s.res := rfl
      rw [hres, hq2]
      omega

theorem mr_solve_history (A M : Qv → Qv) (b x0 : Qv) (tol : ℚ) (normv : Qv → ℚ)
    (mN : Nat) (hm : 1 ≤ mN) :
    (mr_solve A M b x0 tol normv mN).res.head? = some (normv (M (vsub b (A x0)))) ∧
      ((mr_solve A M b x0 tol normv mN).status = (mN : Int) →
        (mr_solve A M b x0 tol normv mN).res.length = mN + 1) := by
  by_cases hpre : normv (M (vsub b (A x0))) < tol
  · simp only [mr_solve, hpre, if_true]
    exact ⟨rfl, fun habs => by omega⟩
  · simp only [mr_solve, hpre, if_false]
    refine krun_inv _ mr_halt
      (fun f s => s.res.head? = some (normv (M (vsub b (A x0)))) ∧
        s.res.length = s.iter + 1 ∧ f + s.iter = mN)
      (fun k => k.res.head? = some (normv (M (vsub b (A x0)))) ∧
        (k.status = (mN : Int) → k.res.length = mN + 1)) ?_ ?_ mN _ ⟨rfl, rfl, rfl⟩
    · intro f s hq
      obtain ⟨hq1, hq2, hq3⟩ := hq
      have hne : s.res ≠ [] := by
        intro hnil
        rw [hnil] at hq1
        simp at hq1
      constructor
      · intro k hk
        rcases mr_body_inl hk with ⟨hst, hres⟩ | ⟨v, hres, ⟨h0, _⟩ | ⟨hof, hit, _⟩⟩
        · exact ⟨hres ▸ hq1, fun habs => by rw [hst] at habs; omega⟩
        · refine ⟨?_, fun habs => by rw [h0] at habs; omega⟩
          rw [hres, List.head?_append_of_ne_nil s.res hne]
          exact hq1
        · refine ⟨?_, fun _ => ?_⟩
          · rw [hres, List.head?_append_of_ne_nil s.res hne]
            exact hq1
          · rw [hres, List.length_append, List.length_singleton, hq2]
            omega
      · intro t ht
        obtain ⟨hn', hit, ⟨v, hres⟩, _, _⟩ := mr_body_inr ht
        refine ⟨?_, ?_, by omega⟩
        · rw [hres, List.head?_append_of_ne_nil s.res hne]
          exact hq1
        · rw [hres, List.length_append, List.length_singleton, hq2, hit]
    · intro s hq
      obtain ⟨hq1, hq2, hq3⟩ := hq
      refine ⟨hq1, fun _ => ?_⟩
      have hres : (mr_halt s).res = s.res := rfl
      rw [hres, hq2]
      omega

theorem sd_run_history (A M : Qv → Qv) (b : Qv) (normv : Qv → ℚ) (normA : Option ℚ)
    (normb tol : ℚ) (mN : Nat) (hm : 1 ≤ mN) (h0 : ℚ) :
    ∀ (f : Nat) (s : SDState),
      s.res.head? = some h0 → s.res.length = s.it + 1 → f + s.it = mN →
      (krun (sd_body A M b normv normA normb tol mN) sd_halt f s).res.head? = some h0 ∧
        ((krun (sd_body A M b normv normA normb tol mN) sd_halt f s).status = (mN : Int) →
          (krun (sd_body A M b normv normA normb tol mN) sd_halt f s).res.length = mN + 1) := by
  intro f s hq1 hq2 hq3
  refine krun_inv _ sd_halt
    (fun f s => s.res.head? = some h0 ∧ s.res.length = s.it + 1 ∧ f + s.it = mN)
    (fun k => k.res.head? = some h0 ∧ (k.status = (mN : Int) → k.res.length = mN + 1))
    ?_ ?_ f s ⟨hq1, hq2, hq3⟩
  · intro f' s' hq
    obtain ⟨hq1, hq2, hq3⟩ := hq
    have hne : s'.res ≠ [] := by
      intro hnil
      rw [hnil] at hq1
      simp at hq1
    constructor
    · intro k hk
      cases hadv : sd_advance A M b s' with
      | inl k2 =>
        simp only [sd_body, hadv, Sum.inl.injEq] at hk
        subst hk
        obtain ⟨hst, hres, _⟩ := sd_advance_inl hadv
        exact ⟨hres ▸ hq1, fun habs => by rw [hst] at habs; omega⟩
      | inr t2 =>
        simp only [sd_body, hadv] at hk
        obtain ⟨h2i, h2res, _⟩ := sd_advance_inr hadv
        obtain ⟨hkx, hkres, hdisj⟩ := sd_finish_inl hk
        have hres2 : k.res = s'.res ++ [normv t2.r] := by rw [hkres, h2res]
        refine ⟨by rw [hres2, List.head?_append_of_ne_nil s'.res hne]; exact hq1, ?_⟩
        intro habs
        rcases hdisj with h0' | ⟨h1, _⟩ | ⟨hof, hit⟩
        · rw [h0'] at habs
          omega
        · rw [h1] at habs
          omega
        · rw [hres2, List.length_append, List.length_singleton, hq2]
          omega
    · intro t hk
      cases hadv : sd_advance A M b s' with
      | inl k2 =>
        simp only [sd_body, hadv] at hk
        exact Sum.noConfusion hk
      | inr t2 =>
        simp only [sd_body, hadv] at hk
        obtain ⟨h2i, h2res, _⟩ := sd_advance_inr hadv
        obtain ⟨hti, htres, hne2⟩ := sd_finish_inr hk
        have hres2 : t.res = s'.res ++ [normv t2.r] := by rw [htres, h2res]
        refine ⟨?_, ?_, ?_⟩
        · rw [hres2, List.head?_append_of_ne_nil s'.res hne]
          exact hq1
        · rw [hres2, List.length_append, List.length_singleton, hq2, hti, h2i]
        · omega
  · intro s' hq
    obtain ⟨hq1, hq2, hq3⟩ := hq
    refine ⟨hq1, fun _ => ?_⟩
    have hres2 : (sd_halt s').res = s'.res := rfl
    rw [hres2, hq2]
    omega

theorem sd_solve_history (A M : Qv → Qv) (b x0 : Qv) (tol : ℚ) (normA : Option ℚ)
    (normv : Qv → ℚ) (mN : Nat) (hm : 1 ≤ mN) :
    (sd_solve A M b x0 tol normA normv mN).res.head? = some (normv (vsub b (A x0))) ∧
      ((sd_solve A M b x0 tol normA normv mN).status = (mN : Int) →
        (sd_solve A M b x0 tol normA normv mN).res.length = mN + 1) := by
  simp only [sd_solve]
  split_ifs with hb hpre hpre2
  · exact ⟨rfl, fun habs => by simp at habs; omega⟩
  · exact sd_run_history A M b normv normA 1 tol mN hm _ mN _ rfl rfl rfl
  · exact ⟨rfl, fun habs => by simp at habs; omega⟩
  · exact sd_run_history A M b normv normA (normv b) tol mN hm _ mN _ rfl rfl rfl

theorem cr_go_history (A M : Qv → Qv) (b x r z p : Qv) (tol : ℚ) (criteria : String)
    (normv : Qv → ℚ) (normb normA normMb rtol normr h0 : ℚ) (res : List ℚ)
    (mN : Nat) (hm : 1 ≤ mN) (hres0 : res = [h0]) :
    (cr_go A M b x r z p tol criteria normv normb normA normMb rtol normr res mN).res.head? =
        some h0 ∧
      ((cr_go A M b x r z p tol criteria normv normb normA normMb rtol normr res mN).status =
          (mN : Int) →
        (cr_go A M b x r z p tol criteria normv normb normA normMb rtol normr res
          mN).res.length = mN + 1) := by
  subst hres0
  simp only [cr_go]
  split_ifs with hpre
  · exact ⟨rfl, fun habs => by simp at habs; omega⟩
  · refine krun_inv _ cr_halt
      (fun f s => s.res.head? = some h0 ∧ s.res.length = s.it + 1 ∧ f + s.it = mN)
      (fun k => k.res.head? = some h0 ∧ (k.status = (mN : Int) → k.res.length = mN + 1))
      ?_ ?_ mN _ ⟨rfl, rfl, rfl⟩
    · intro f s hq
      obtain ⟨hq1, hq2, hq3⟩ := hq
      have hne : s.res ≠ [] := by
        intro hnil
        rw [hnil] at hq1
        simp at hq1
      have hadv := cr_advance_fields A M b s
      constructor
      · intro k hk
        simp only [cr_body] at hk
        obtain ⟨hkx, hkres, hdisj⟩ := cr_finish_inl hk
        have hres' : k.res = s.res ++ [normv (cr_advance A M b s).r] := by
          rw [hkres, hadv.2.1]
        refine ⟨by rw [hres', List.head?_append_of_ne_nil s.res hne]; exact hq1, ?_⟩
        intro habs
        rcases hdisj with h0' | ⟨h1, _⟩ | ⟨hof, hit⟩
        · rw [h0'] at habs
          omega
        · rw [h1] at habs
          omega
        · rw [hres', List.length_append, List.length_singleton, hq2]
          rw [hadv.1] at hit
          omega
      · intro t hk
        simp only [cr_body] at hk
        obtain ⟨hti, htres, hne2⟩ := cr_finish_inr hk
        have hres' : t.res = s.res ++ [normv (cr_advance A M b s).r] := by
          rw [htres, hadv.2.1]
        refine ⟨?_, ?_, ?_⟩
        · rw [hres', List.head?_append_of_ne_nil s.res hne]
          exact hq1
        · rw [hres', List.length_append, List.length_singleton, hq2, hti, hadv.1]
        · rw [hti, hadv.1]
          omega
    · intro s hq
      obtain ⟨hq1, hq2, hq3⟩ := hq
      refine ⟨hq1, fun _ => ?_⟩
      have hres : (cr_halt s).res = s.res := rfl
      rw [hres, hq2]
      omega

/-! ## Claims -/

/-- Claim C2 (amended): in `cg` and `cr` the residual is updated by the
cheap formula `r -= alpha*Ap` exactly when the iteration count `iter` is
at least 1 and NOT a multiple of 8, and is recomputed exactly as
`r = b - A*x` when `iter` is 0 or a multiple of 8 (the claim as frozen
states the two branches the other way around). -/
theorem claim_C2_amended :
    (∀ (A M : Qv → Qv) (b : Qv) (s t : CGState),
      cg_advance A M b s = Sum.inr t →
      ((0 < s.iter ∧ s.iter % 8 ≠ 0) →
        t.r = vsub s.r (smul (s.rz / dotc (A s.p) s.p) (A s.p))) ∧
      ((s.iter = 0 ∨ s.iter % 8 = 0) → t.r = vsub b (A t.x))) ∧
    (∀ (A M : Qv → Qv) (b : Qv) (s : CRState),
      ((0 < s.it ∧ s.it % 8 ≠ 0) →
        (cr_advance A M b s).r = vsub s.r (smul (s.rAz / dotc s.ap s.ap) s.ap)) ∧
      ((s.it = 0 ∨ s.it % 8 = 0) →
        (cr_advance A M b s).r = vsub b (A (cr_advance A M b s).x))) := by
  constructor
  · intro A M b s t h
    constructor
    · rintro ⟨ha, hb8⟩
      simp only [cg_advance, cg_recompute_r] at h
      rw [if_pos (show s.iter % 8 ≠ 0 ∧ 0 < s.iter from ⟨hb8, ha⟩)] at h
      split_ifs at h <;> cases h <;> rfl
    · intro h0
      have hcondF : ¬ (s.iter % 8 ≠ 0 ∧ 0 < s.iter) := by
        rcases h0 with h0 | h0 <;> omega
      simp only [cg_advance, cg_recompute_r] at h
      rw [if_neg hcondF] at h
      split_ifs at h <;> cases h <;> rfl
  · intro A M b s
    constructor
    · rintro ⟨ha, hb8⟩
      simp only [cr_advance, cr_recompute_r]
      rw [if_pos (show s.it % 8 ≠ 0 ∧ 0 < s.it from ⟨hb8, ha⟩)]
    · intro h0
      have hcondF : ¬ (s.it % 8 ≠ 0 ∧ 0 < s.it) := by
        rcases h0 with h0 | h0 <;> omega
      simp only [cr_advance, cr_recompute_r]
      rw [if_neg hcondF]

/-- Claim C2 counterexample: the claim as stated is false.  With the
(legal, since linearity is never checked) nonlinear operator
`A v = [v₀² + 1]`, `b = [3]`, `x0 = [0]`, `tol = 0`, `maxiter = 2`, the
second loop iteration runs with `iter = 1`, which is not a multiple of 8;
the claim then requires the exact recomputation `r = b - A*x`, so the
final history entry would equal `‖b - A x‖` for the returned `x`.  The
run instead used the cheap update there: the call returns status 2 and
its last history entry differs from `‖b - A x‖`. -/
theorem claim_C2_counterexample :
    (cg opSqPlusOne idv [3] [0] 0 (some 2) sumabs []).toOption.map
        (fun k => decide (k.res.getD 2 0 = sumabs (vsub [3] (opSqPlusOne k.x)))) =
      some false ∧
    (cg opSqPlusOne idv [3] [0] 0 (some 2) sumabs []).toOption.map KResult.status =
      some 2 := by
  constructor
  · with_unfolding_all rfl
  · with_unfolding_all rfl

/-- Claim C2 witness: on a first iteration (`iter = 0`) the `cg` body
recomputes the residual exactly, `t.r = b - A t.x`. -/
theorem claim_C2_witness :
    cg_advance idv idv [1] ⟨[0], [1], [1], 1, 0, [], []⟩ =
        Sum.inr ⟨[1], [0], [0], 0, 0, [], []⟩ ∧
      (⟨[1], [0], [0], 0, 0, [], []⟩ : CGState).r =
        vsub [1] (idv (⟨[1], [0], [0], 0, 0, [], []⟩ : CGState).x) :=
  ⟨by with_unfolding_all rfl,
    (claim_C2_amended.1 idv idv [1] ⟨[0], [1], [1], 1, 0, [], []⟩
      ⟨[1], [0], [0], 0, 0, [], []⟩ (by with_unfolding_all rfl)).2 (Or.inl rfl)⟩

/-- Claim C3: evaluation of the swapped residual-update branches in
`minimal_residual` and `steepest_descent`.  At iteration 50 (a multiple
of `recompute_r = 50`) the `minimal_residual` body performs the cheap
update `r = r - alpha*p` (yielding `[0]`), not the exact recomputation
`r = M*(b - A*x)` (which would yield `[-1]`); at iteration 1 (not a
multiple of 50) both bodies perform the exact recomputation, not the
cheap update — exactly opposite to the claim. -/
theorem claim_C3_recompute_branches_swapped :
    mr_body idv idv [0] sumabs 1 100 ⟨[0], [1], 5, 49, [], []⟩ =
        Sum.inr ⟨[1], [0], 5, 50, [0], [[1]]⟩ ∧
      vsub ([1] : Qv) (smul 1 [1]) = [0] ∧
      idv (vsub [0] (idv [1])) = [-1] ∧ (([0] : Qv) ≠ [-1]) ∧
      mr_body idv idv [0] sumabs 1 100 ⟨[0], [1], 5, 0, [], []⟩ =
        Sum.inr ⟨[1], [-1], 5, 1, [1], [[1]]⟩ ∧
      sd_advance idv idv [0] ⟨[0], [1], [1], 1, 0, [], []⟩ =
        Sum.inr ⟨[1], [-1], [-1], 1, 1, [], []⟩ ∧
      vsub ([1] : Qv) (smul 1 [1]) ≠ idv (vsub [0] (idv [1])) := by
  refine ⟨?_, ?_, ?_, ?_, ?_, ?_, ?_⟩
  · with_unfolding_all rfl
  · with_unfolding_all rfl
  · with_unfolding_all rfl
  · exact of_decide_eq_true (by with_unfolding_all rfl)
  · with_unfolding_all rfl
  · with_unfolding_all rfl
  · exact of_decide_eq_true (by with_unfolding_all rfl)

/-- Claim C4: when `cg` detects `pAp = ⟨Ap,p⟩ < 0` (or `steepest_descent`
detects `zAz < 0`) at the start of an iteration, the call returns
normally with status −1 and the returned `x` is exactly the iterate as it
stood at the end of the previous iteration (the state's `x`, which the
aborted iteration has not yet updated); in particular a `cg` call whose
very first iteration detects negative curvature returns the initial
guess `x0` unchanged, inside `Except.ok`. -/
theorem claim_C4_breakdown_returns_previous_iterate :
    (∀ (A M : Qv → Qv) (b : Qv) (s : CGState),
      dotc (A s.p) s.p < 0 →
      cg_advance A M b s = Sum.inl ⟨s.x, -1, s.res, s.cbs⟩) ∧
    (∀ (A M : Qv → Qv) (b : Qv) (s : SDState),
      dotc s.z (A s.z) < 0 →
      sd_advance A M b s = Sum.inl ⟨s.x, -1, s.res, s.cbs⟩) ∧
    (∀ (A M : Qv → Qv) (b x0 : Qv) (tol : ℚ) (normv : Qv → ℚ) (l : List ℚ) (m : Int),
      1 ≤ m → ¬ normv (vsub b (A x0)) < tol →
      dotc (A (M (vsub b (A x0)))) (M (vsub b (A x0))) < 0 →
      cg A M b x0 tol (some m) normv l =
        Except.ok ⟨x0, -1, [normv (vsub b (A x0))], []⟩) := by
  refine ⟨?_, ?_, ?_⟩
  · intro A M b s h
    simp [cg_advance, h]
  · intro A M b s h
    simp [sd_advance, h]
  · intro A M b x0 tol normv l m hm hc hneg
    have hm1 : ¬ m < 1 := by omega
    obtain ⟨f, hf⟩ : ∃ f, m.toNat = f + 1 := ⟨m.toNat - 1, by omega⟩
    simp only [cg, hm1, if_false, cg_solve, hc, if_neg, hf]
    simp only [krun, cg_body]
    have hadv : cg_advance A M b
        ⟨x0, vsub b (A x0), M (vsub b (A x0)),
          dotc (vsub b (A x0)) (M (vsub b (A x0))), 0, [normv (vsub b (A x0))], []⟩ =
        Sum.inl ⟨x0, -1, [normv (vsub b (A x0))], []⟩ := by
      simp [cg_advance, hneg]
    rw [hadv]

/-- Claim C4 witness: a one-dimensional negative-definite `A = [-1]` with
`b = [1]`, `x0 = [0]`, for which `cg` returns `(x0, -1)` on the first
iteration. -/
theorem claim_C4_witness :
    (1 : Int) ≤ 5 ∧ ¬ sumabs (vsub [1] (negv [0])) < (1 : ℚ)/2 ∧
      dotc (negv (idv (vsub [1] (negv [0])))) (idv (vsub [1] (negv [0]))) < 0 ∧
      cg negv idv [1] [0] ((1 : ℚ)/2) (some 5) sumabs [] =
        Except.ok ⟨[0], -1, [sumabs (vsub [1] (negv [0]))], []⟩ :=
  ⟨by decide, of_decide_eq_true (by with_unfolding_all rfl),
    of_decide_eq_true (by with_unfolding_all rfl),
    claim_C4_breakdown_returns_previous_iterate.2.2 negv idv [1] [0] ((1 : ℚ)/2) sumabs [] 5
      (by decide) (of_decide_eq_true (by with_unfolding_all rfl))
      (of_decide_eq_true (by with_unfolding_all rfl))⟩

/-- Claim C5: every solver rejects `maxiter < 1` with the source's
`ValueError` before any iteration; `cr` additionally rejects an
unrecognized `criteria` string and `criteria='rr+'` when `A`'s concrete
representation is neither sparse nor an ndarray; and with a valid setup
every solver returns `Except.ok` — no raise can occur once the iteration
loop has begun. -/
theorem claim_C5_invalid_argument :
    (∀ (A M : Qv → Qv) (b x0 : Qv) (tol : ℚ) (normv : Qv → ℚ) (l : List ℚ) (m : Int),
      m < 1 → cg A M b x0 tol (some m) normv l =
        Except.error ("Number of iterations must be positive")) ∧
    (∀ (A M : Qv → Qv) (b x0 : Qv) (tol : ℚ) (normv : Qv → ℚ) (l : List ℚ) (m : Int),
      m < 1 → minimal_residual A M b x0 tol (some m) normv l =
        Except.error ("Number of iterations must be positive")) ∧
    (∀ (A M : Qv → Qv) (b x0 : Qv) (tol : ℚ) (normA : Option ℚ) (normv : Qv → ℚ)
      (l : List ℚ) (m : Int),
      m < 1 → steepest_descent A M b x0 tol normA (some m) normv l =
        Except.error ("Number of iterations must be positive")) ∧
    (∀ (A : Qv → Qv) (Arep : MatRep) (M : Qv → Qv) (b x0 : Qv) (tol : ℚ)
      (criteria : String) (normv : Qv → ℚ) (sqrtq : ℚ → ℚ) (l : List ℚ) (m : Int),
      m < 1 → cr A Arep M b x0 tol criteria (some m) normv sqrtq l =
        Except.error ("Number of iterations must be positive")) ∧
    (∀ (A : Qv → Qv) (Arep : MatRep) (M : Qv → Qv) (b x0 : Qv) (tol : ℚ)
      (criteria : String) (normv : Qv → ℚ) (sqrtq : ℚ → ℚ) (l : List ℚ) (m : Int),
      1 ≤ m → criteria ≠ "rr" → criteria ≠ "rr+" → criteria ≠ "MrMr" →
      cr A Arep M b x0 tol criteria (some m) normv sqrtq l =
        Except.error ("Invalid stopping criteria.")) ∧
    (∀ (A M : Qv → Qv) (b x0 : Qv) (tol : ℚ) (normv : Qv → ℚ) (sqrtq : ℚ → ℚ)
      (l : List ℚ) (m : Int),
      1 ≤ m → cr A MatRep.other M b x0 tol "rr+" (some m) normv sqrtq l =
        Except.error ("Unable to use ||A||_F with the current matrix format.")) ∧
    (∀ (A M : Qv → Qv) (b x0 : Qv) (tol : ℚ) (normv : Qv → ℚ) (l : List ℚ) (m : Int),
      1 ≤ m → ∃ k, cg A M b x0 tol (some m) normv l = Except.ok k) ∧
    (∀ (A M : Qv → Qv) (b x0 : Qv) (tol : ℚ) (normv : Qv → ℚ) (l : List ℚ) (m : Int),
      1 ≤ m → ∃ k, minimal_residual A M b x0 tol (some m) normv l = Except.ok k) ∧
    (∀ (A M : Qv → Qv) (b x0 : Qv) (tol : ℚ) (normA : Option ℚ) (normv : Qv → ℚ)
      (l : List ℚ) (m : Int),
      1 ≤ m → ∃ k, steepest_descent A M b x0 tol normA (some m) normv l = Except.ok k) ∧
    (∀ (A : Qv → Qv) (Arep : MatRep) (M : Qv → Qv) (b x0 : Qv) (tol : ℚ)
      (criteria : String) (normv : Qv → ℚ) (sqrtq : ℚ → ℚ) (l : List ℚ) (m : Int),
      1 ≤ m →
      (criteria = "rr" ∨ (criteria = "rr+" ∧ Arep ≠ MatRep.other) ∨ criteria = "MrMr") →
      ∃ k, cr A Arep M b x0 tol criteria (some m) normv sqrtq l = Except.ok k) := by
  refine ⟨?_, ?_, ?_, ?_, ?_, ?_, ?_, ?_, ?_, ?_⟩
  · intro A M b x0 tol normv l m h
    simp [cg, h]
  · intro A M b x0 tol normv l m h
    simp [minimal_residual, h]
  · intro A M b x0 tol normA normv l m h
    simp [steepest_descent, h]
  · intro A Arep M b x0 tol criteria normv sqrtq l m h
    simp [cr, h]
  · intro A Arep M b x0 tol criteria normv sqrtq l m hm h1 h2 h3
    have hm1 : ¬ m < 1 := by omega
    simp [cr, hm1, cr_solve, h1, h2, h3]
  · intro A M b x0 tol normv sqrtq l m hm
    have hm1 : ¬ m < 1 := by omega
    simp only [cr, hm1, if_false]
    rfl
  · intro A M b x0 tol normv l m hm
    have hm1 : ¬ m < 1 := by omega
    simp only [cg, hm1, if_false]
    exact ⟨_, rfl⟩
  · intro A M b x0 tol normv l m hm
    have hm1 : ¬ m < 1 := by omega
    simp only [minimal_residual, hm1, if_false]
    exact ⟨_, rfl⟩
  · intro A M b x0 tol normA normv l m hm
    have hm1 : ¬ m < 1 := by omega
    simp only [steepest_descent, hm1, if_false]
    exact ⟨_, rfl⟩
  · intro A Arep M b x0 tol criteria normv sqrtq l m hm hcrit
    have hm1 : ¬ m < 1 := by omega
    simp only [cr, hm1, if_false]
    rcases hcrit with h | ⟨h, hrep⟩ | h
    · subst h
      exact ⟨_, rfl⟩
    · subst h
      cases Arep with
      | sparse d => exact ⟨_, rfl⟩
      | ndarray e => exact ⟨_, rfl⟩
      | other => exact absurd rfl hrep
    · subst h
      exact ⟨_, rfl⟩

/-- Claim C5 witness: concrete instances of the setup-time rejections and
of a valid call returning `ok`. -/
theorem claim_C5_witness :
    (0 : Int) < 1 ∧
      cg idv idv [1] [0] 1 (some 0) sumabs [] =
        Except.error ("Number of iterations must be positive") ∧
      cr idv (MatRep.sparse [2]) idv [1] [0] 1 "bogus" (some 3) sumabs idq [] =
        Except.error ("Invalid stopping criteria.") ∧
      cr idv MatRep.other idv [1] [0] 1 "rr+" (some 3) sumabs idq [] =
        Except.error ("Unable to use ||A||_F with the current matrix format.") ∧
      ∃ k, cg idv idv [1] [0] 1 (some 3) sumabs [] = Except.ok k :=
  ⟨by decide,
    claim_C5_invalid_argument.1 idv idv [1] [0] 1 sumabs [] 0 (by decide),
    claim_C5_invalid_argument.2.2.2.2.1 idv (MatRep.sparse [2]) idv [1] [0] 1 "bogus"
      sumabs idq [] 3 (by decide) (by decide) (by decide) (by decide),
    claim_C5_invalid_argument.2.2.2.2.2.1 idv idv [1] [0] 1 sumabs idq [] 3 (by decide),
    claim_C5_invalid_argument.2.2.2.2.2.2.1 idv idv [1] [0] 1 sumabs [] 3 (by decide)⟩

/-- Claim C10: in `cg` and `minimal_residual` the pre-loop convergence
check compares the initial residual norm against the caller's `tol` as an
absolute threshold; when it passes, the call returns `x0` with status 0,
a history holding only the initial entry, and no callback invocation —
the rescaling `tol := tol * normr` is applied only after this check. -/
theorem claim_C10_preloop_absolute_tolerance :
    (∀ (A M : Qv → Qv) (b x0 : Qv) (tol : ℚ) (normv : Qv → ℚ) (l : List ℚ) (m : Int),
      1 ≤ m → normv (vsub b (A x0)) < tol →
      cg A M b x0 tol (some m) normv l =
        Except.ok ⟨x0, 0, [normv (vsub b (A x0))], []⟩) ∧
    (∀ (A M : Qv → Qv) (b x0 : Qv) (tol : ℚ) (normv : Qv → ℚ) (l : List ℚ) (m : Int),
      1 ≤ m → normv (M (vsub b (A x0))) < tol →
      minimal_residual A M b x0 tol (some m) normv l =
        Except.ok ⟨x0, 0, [normv (M (vsub b (A x0)))], []⟩) := by
  constructor
  · intro A M b x0 tol normv l m hm hc
    have hm1 : ¬ m < 1 := by omega
    simp [cg, hm1, cg_solve, hc]
  · intro A M b x0 tol normv l m hm hc
    have hm1 : ¬ m < 1 := by omega
    simp [minimal_residual, hm1, mr_solve, hc]

/-- Claim C10 witness: `b = A x0` makes the initial residual zero, and
`cg` returns immediately with status 0 and a one-entry history. -/
theorem claim_C10_witness :
    (1 : Int) ≤ 3 ∧ sumabs (vsub [1] (idv [1])) < (1 : ℚ) ∧
      cg idv idv [1] [1] 1 (some 3) sumabs [] =
        Except.ok ⟨[1], 0, [sumabs (vsub [1] (idv [1]))], []⟩ :=
  ⟨by decide, of_decide_eq_true (by with_unfolding_all rfl),
    claim_C10_preloop_absolute_tolerance.1 idv idv [1] [1] 1 sumabs [] 3
      (by decide) (of_decide_eq_true (by with_unfolding_all rfl))⟩

/-- Claim C1: in `minimal_residual` the in-loop convergence check
compares the stale `normr` captured before the loop began against the
scaled tolerance: the loop body never reassigns `normr` (first conjunct),
so whenever any number of loop iterations returns status 0, what was
tested is the pre-loop `normr` of the starting state (second conjunct). -/
theorem claim_C1_mr_stale_normr :
    (∀ (A M : Qv → Qv) (b : Qv) (normv : Qv → ℚ) (tol : ℚ) (mN : Nat) (s t : MRState),
      mr_body A M b normv tol mN s = Sum.inr t → t.normr = s.normr) ∧
    (∀ (A M : Qv → Qv) (b : Qv) (normv : Qv → ℚ) (tol : ℚ) (mN f : Nat)
      (s : MRState) (k : KResult),
      1 ≤ mN → f + s.iter = mN →
      krun (mr_body A M b normv tol mN) mr_halt f s = k →
      k.status = 0 → s.normr < tol) := by
  constructor
  · intro A M b normv tol mN s t h
    exact (mr_body_inr h).1
  · intro A M b normv tol mN f s k hm hfi hrun
    subst hrun
    refine krun_inv (mr_body A M b normv tol mN) mr_halt
      (fun f' s' => s'.normr = s.normr ∧ f' + s'.iter = mN)
      (fun k' => k'.status = 0 → s.normr < tol) ?_ ?_ f s ⟨rfl, hfi⟩
    · intro f' s' hq
      obtain ⟨hq1, hq2⟩ := hq
      constructor
      · intro k' hk' hst
        rcases mr_body_inl hk' with ⟨h1, _⟩ | ⟨v, _, ⟨h0, hlt⟩ | ⟨hofn, _, _⟩⟩
        · rw [h1] at hst
          exact absurd hst (by decide)
        · exact hq1 ▸ hlt
        · rw [hofn] at hst
          exact absurd hst (by omega)
      · intro t ht
        obtain ⟨hn', hit, _, _, _⟩ := mr_body_inr ht
        exact ⟨hn'.trans hq1, by omega⟩
    · intro s' hq hst
      obtain ⟨hq1, hq2⟩ := hq
      have h1 : (s'.iter : Int) = 0 := hst
      exact absurd hq2 (by omega)

/-- Claim C1 witness: a loop body step preserves `normr`, and a loop run
that returns status 0 did so because the pre-loop `normr` (here 1/2, not
the current residual norm 0) is below the scaled tolerance. -/
theorem claim_C1_witness :
    mr_body idv idv [1] sumabs 1 2 ⟨[0], [1], 1, 0, [1], []⟩ =
        Sum.inr ⟨[1], [0], 1, 1, [1, 0], [[1]]⟩ ∧
      (⟨[1], [0], 1, 1, [1, 0], [[1]]⟩ : MRState).normr =
        (⟨[0], [1], 1, 0, [1], []⟩ : MRState).normr ∧
      (1 : Nat) ≤ 3 ∧
      krun (mr_body idv idv [1] sumabs 1 3) mr_halt 3 ⟨[0], [1], 1/2, 0, [1], []⟩ =
        (⟨[1], 0, [1, 0], [[1]]⟩ : KResult) ∧
      (1 : ℚ)/2 < 1 :=
  ⟨by with_unfolding_all rfl,
    claim_C1_mr_stale_normr.1 idv idv [1] sumabs 1 2 _ _ (by with_unfolding_all rfl),
    by decide, by with_unfolding_all rfl,
    claim_C1_mr_stale_normr.2 idv idv [1] sumabs 1 3 3 ⟨[0], [1], 1/2, 0, [1], []⟩
      ⟨[1], 0, [1, 0], [[1]]⟩ (by decide) (by decide)
      (by with_unfolding_all rfl) rfl⟩

/-- Claim C9: for `minimal_residual` with `0 < tol ≤ 1` and initial
preconditioned residual norm `normr` satisfying `0 < normr` and
`tol ≤ normr` (so the loop is entered), the in-loop test
`normr < tol*normr` can never hold, so no call returns status 0: every
return carries −1 (breakdown) or the iteration count (exhaustion). -/
theorem claim_C9_mr_never_status0 :
    ∀ (A M : Qv → Qv) (b x0 : Qv) (tol : ℚ) (normv : Qv → ℚ) (l : List ℚ) (m : Int)
      (k : KResult),
      0 < tol → tol ≤ 1 → 0 < normv (M (vsub b (A x0))) →
      tol ≤ normv (M (vsub b (A x0))) →
      minimal_residual A M b x0 tol (some m) normv l = Except.ok k →
      k.status ≠ 0 := by
  intro A M b x0 tol normv l m k ht0 ht1 hn0 htn hok
  by_cases hm : m < 1
  · simp [minimal_residual, hm] at hok
  · simp only [minimal_residual, hm, if_false, Except.ok.injEq] at hok
    have hnlt : ¬ normv (M (vsub b (A x0))) < tol := not_lt.mpr htn
    have hne : normv (M (vsub b (A x0))) ≠ 0 := ne_of_gt hn0
    simp only [mr_solve, hnlt, if_false] at hok
    subst hok
    refine krun_inv _ mr_halt
      (fun f' s' => s'.normr = normv (M (vsub b (A x0))) ∧ f' + s'.iter = m.toNat)
      (fun k' => k'.status ≠ 0) ?_ ?_ m.toNat _ ⟨rfl, rfl⟩
    · intro f' s' hq
      obtain ⟨hq1, hq2⟩ := hq
      constructor
      · intro k' hk' hst
        rcases mr_body_inl hk' with ⟨h1, _⟩ | ⟨v, _, ⟨h0, hlt⟩ | ⟨hofn, _, _⟩⟩
        · rw [h1] at hst
          exact absurd hst (by decide)
        · rw [hq1, if_pos hne] at hlt
          nlinarith
        · rw [hofn] at hst
          exact absurd hst (by omega)
      · intro t ht
        obtain ⟨hn', hit, _, _, _⟩ := mr_body_inr ht
        exact ⟨hn'.trans hq1, by omega⟩
    · intro s' hq hst
      obtain ⟨hq1, hq2⟩ := hq
      have h1 : (s'.iter : Int) = 0 := hst
      omega

/-- Claim C9 witness: a concrete non-converging `minimal_residual` call
(`A = M = I`, `b = [1]`, `x0 = [0]`, `tol = 1`, `maxiter = 1`) returns
status 1, not 0. -/
theorem claim_C9_witness :
    (0 : ℚ) < 1 ∧ (0 : ℚ) < sumabs (idv (vsub [1] (idv [0]))) ∧
      minimal_residual idv idv [1] [0] 1 (some 1) sumabs [] =
        Except.ok ⟨[1], 1, [1, 0], [[1]]⟩ ∧
      (⟨[1], 1, [1, 0], [[1]]⟩ : KResult).status ≠ 0 :=
  ⟨by decide, of_decide_eq_true (by with_unfolding_all rfl),
    by with_unfolding_all rfl,
    claim_C9_mr_never_status0 idv idv [1] [0] 1 sumabs [] 1 ⟨[1], 1, [1, 0], [[1]]⟩
      (by decide) (by decide) (of_decide_eq_true (by with_unfolding_all rfl))
      (of_decide_eq_true (by with_unfolding_all rfl))
      (by with_unfolding_all rfl)⟩

/-- Claim C6: in `cg`, `cr` and `steepest_descent` the exact-zero
singular-preconditioner test (`rz == 0` for cg/sd, `zz == 0` for cr) is
evaluated only after the convergence test has failed for the iteration:
if the convergence criterion holds the solver returns status 0 even when
the inner product is exactly zero, and the status −1 singular return
happens exactly when the convergence test fails and the inner product is
exactly zero. -/
theorem claim_C6_singular_check_after_convergence :
    (∀ (normv : Qv → ℚ) (tol : ℚ) (mN : Nat) (t : CGState),
      (normv t.r < tol →
        cg_finish normv tol mN t =
          Sum.inl ⟨t.x, 0, t.res ++ [normv t.r], t.cbs ++ [t.x]⟩) ∧
      (¬ normv t.r < tol → t.rz = 0 →
        cg_finish normv tol mN t =
          Sum.inl ⟨t.x, -1, t.res ++ [normv t.r], t.cbs ++ [t.x]⟩) ∧
      (∀ k, cg_finish normv tol mN t = Sum.inl k → k.status = -1 →
        ¬ normv t.r < tol ∧ t.rz = 0)) ∧
    (∀ (normv : Qv → ℚ) (normA : Option ℚ) (normb tol : ℚ) (mN : Nat) (t : SDState),
      (normv t.r < sd_rtol normv normA normb tol t.x →
        sd_finish normv normA normb tol mN t =
          Sum.inl ⟨t.x, 0, t.res ++ [normv t.r], t.cbs ++ [t.x]⟩) ∧
      (¬ normv t.r < sd_rtol normv normA normb tol t.x → t.rz = 0 →
        sd_finish normv normA normb tol mN t =
          Sum.inl ⟨t.x, -1, t.res ++ [normv t.r], t.cbs ++ [t.x]⟩) ∧
      (∀ k, sd_finish normv normA normb tol mN t = Sum.inl k → k.status = -1 →
        ¬ normv t.r < sd_rtol normv normA normb tol t.x ∧ t.rz = 0)) ∧
    (∀ (normv : Qv → ℚ) (criteria : String) (tol normb normA normMb : ℚ) (mN : Nat)
      (t : CRState),
      ((if criteria = "MrMr" then normv t.z else normv t.r) <
          (if criteria = "rr" then tol * normb
           else if criteria = "rr+" then tol * (normA * normv t.x + normb)
           else if criteria = "MrMr" then tol * normMb
           else t.rtol) →
        cr_finish normv criteria tol normb normA normMb mN t =
          Sum.inl ⟨t.x, 0, t.res ++ [normv t.r], t.cbs ++ [t.x]⟩) ∧
      (¬ (if criteria = "MrMr" then normv t.z else normv t.r) <
          (if criteria = "rr" then tol * normb
           else if criteria = "rr+" then tol * (normA * normv t.x + normb)
           else if criteria = "MrMr" then tol * normMb
           else t.rtol) → dotc t.z t.z = 0 →
        cr_finish normv criteria tol normb normA normMb mN t =
          Sum.inl ⟨t.x, -1, t.res ++ [normv t.r], t.cbs ++ [t.x]⟩) ∧
      (∀ k, cr_finish normv criteria tol normb normA normMb mN t = Sum.inl k →
        k.status = -1 →
        ¬ (if criteria = "MrMr" then normv t.z else normv t.r) <
            (if criteria = "rr" then tol * normb
             else if criteria = "rr+" then tol * (normA * normv t.x + normb)
             else if criteria = "MrMr" then tol * normMb
             else t.rtol) ∧ dotc t.z t.z = 0)) := by
  refine ⟨?_, ?_, ?_⟩
  · intro normv tol mN t
    refine ⟨?_, ?_, ?_⟩
    · intro h
      simp [cg_finish, h]
    · intro h hz
      simp [cg_finish, h, hz]
    · intro k hk hst
      rcases cg_finish_inl hk with ⟨_, _, _, ⟨h0, _⟩ | ⟨_, hc1, hc2⟩ | ⟨hof, _, _⟩⟩
      · rw [h0] at hst
        exact absurd hst (by decide)
      · exact ⟨hc1, hc2⟩
      · rw [hof] at hst
        exact absurd hst (by omega)
  · intro normv normA normb tol mN t
    refine ⟨?_, ?_, ?_⟩
    · intro h
      simp [sd_finish, h]
    · intro h hz
      simp [sd_finish, h, hz]
    · intro k hk hst
      rcases sd_finish_inl hk with ⟨_, _, h0 | ⟨_, hc1, hc2⟩ | ⟨hof, _⟩⟩
      · rw [h0] at hst
        exact absurd hst (by decide)
      · exact ⟨hc2, hc1⟩
      · rw [hof] at hst
        exact absurd hst (by omega)
  · intro normv criteria tol normb normA normMb mN t
    refine ⟨?_, ?_, ?_⟩
    · intro h
      simp only [cr_finish]
      rw [if_pos h]
    · intro h hz
      simp only [cr_finish]
      rw [if_neg h, if_pos hz]
    · intro k hk hst
      rcases cr_finish_inl hk with ⟨_, _, h0 | ⟨_, hc1, hc2⟩ | ⟨hof, _⟩⟩
      · rw [h0] at hst
        exact absurd hst (by decide)
      · exact ⟨hc2, hc1⟩
      · rw [hof] at hst
        exact absurd hst (by omega)

/-- Claim C6 witness: at a state with residual `[0]` (so the inner
product `rz` is exactly zero and the convergence test passes) `cg_finish`
returns status 0; at a state with residual `[2]` and `rz = 0` (the
convergence test fails) it returns the singular-preconditioner status
−1. -/
theorem claim_C6_witness :
    sumabs ([0] : Qv) < 1 ∧ (⟨[0], [0], [0], 0, 0, [], []⟩ : CGState).rz = 0 ∧
      cg_finish sumabs 1 3 ⟨[0], [0], [0], 0, 0, [], []⟩ =
        Sum.inl ⟨[0], 0, [] ++ [sumabs ([0] : Qv)], [] ++ [[0]]⟩ ∧
      ¬ sumabs ([2] : Qv) < 1 ∧
      cg_finish sumabs 1 3 ⟨[0], [2], [0], 0, 0, [], []⟩ =
        Sum.inl ⟨[0], -1, [] ++ [sumabs ([2] : Qv)], [] ++ [[0]]⟩ :=
  ⟨of_decide_eq_true (by with_unfolding_all rfl), rfl,
    (claim_C6_singular_check_after_convergence.1 sumabs 1 3
      ⟨[0], [0], [0], 0, 0, [], []⟩).1 (of_decide_eq_true (by with_unfolding_all rfl)),
    of_decide_eq_true (by with_unfolding_all rfl),
    (claim_C6_singular_check_after_convergence.1 sumabs 1 3
      ⟨[0], [2], [0], 0, 0, [], []⟩).2.1
      (of_decide_eq_true (by with_unfolding_all rfl)) rfl⟩

/-- Claim C7: for every solver called with a residual-history list, the
first history entry equals the norm of the initial residual `b - A*x0`
(the preconditioned norm of `M*(b - A*x0)` for `minimal_residual`, the
plain norm otherwise) computed before any iteration, and a return with
status equal to `maxiter` comes with exactly `1 + maxiter` history
entries. -/
theorem claim_C7_residual_history :
    (∀ (A M : Qv → Qv) (b x0 : Qv) (tol : ℚ) (normv : Qv → ℚ) (l : List ℚ) (m : Int)
      (k : KResult),
      cg A M b x0 tol (some m) normv l = Except.ok k →
      k.res.head? = some (normv (vsub b (A x0))) ∧
        (k.status = m → k.res.length = m.toNat + 1)) ∧
    (∀ (A M : Qv → Qv) (b x0 : Qv) (tol : ℚ) (normv : Qv → ℚ) (l : List ℚ) (m : Int)
      (k : KResult),
      minimal_residual A M b x0 tol (some m) normv l = Except.ok k →
      k.res.head? = some (normv (M (vsub b (A x0)))) ∧
        (k.status = m → k.res.length = m.toNat + 1)) ∧
    (∀ (A M : Qv → Qv) (b x0 : Qv) (tol : ℚ) (normA : Option ℚ) (normv : Qv → ℚ)
      (l : List ℚ) (m : Int) (k : KResult),
      steepest_descent A M b x0 tol normA (some m) normv l = Except.ok k →
      k.res.head? = some (normv (vsub b (A x0))) ∧
        (k.status = m → k.res.length = m.toNat + 1)) ∧
    (∀ (A : Qv → Qv) (Arep : MatRep) (M : Qv → Qv) (b x0 : Qv) (tol : ℚ)
      (criteria : String) (normv : Qv → ℚ) (sqrtq : ℚ → ℚ) (l : List ℚ) (m : Int)
      (k : KResult),
      cr A Arep M b x0 tol criteria (some m) normv sqrtq l = Except.ok k →
      k.res.head? = some (normv (vsub b (A x0))) ∧
        (k.status = m → k.res.length = m.toNat + 1)) := by
  refine ⟨?_, ?_, ?_, ?_⟩
  · intro A M b x0 tol normv l m k hok
    by_cases hm : m < 1
    · simp [cg, hm] at hok
    · simp only [cg, hm, if_false, Except.ok.injEq] at hok
      subst hok
      obtain ⟨hh, hl⟩ := cg_solve_history A M b x0 tol normv m.toNat (by omega)
      refine ⟨hh, fun hst => hl ?_⟩
      rw [hst]
      exact (Int.toNat_of_nonneg (by omega)).symm
  · intro A M b x0 tol normv l m k hok
    by_cases hm : m < 1
    · simp [minimal_residual, hm] at hok
    · simp only [minimal_residual, hm, if_false, Except.ok.injEq] at hok
      subst hok
      obtain ⟨hh, hl⟩ := mr_solve_history A M b x0 tol normv m.toNat (by omega)
      refine ⟨hh, fun hst => hl ?_⟩
      rw [hst]
      exact (Int.toNat_of_nonneg (by omega)).symm
  · intro A M b x0 tol normA normv l m k hok
    by_cases hm : m < 1
    · simp [steepest_descent, hm] at hok
    · simp only [steepest_descent, hm, if_false, Except.ok.injEq] at hok
      subst hok
      obtain ⟨hh, hl⟩ := sd_solve_history A M b x0 tol normA normv m.toNat (by omega)
      refine ⟨hh, fun hst => hl ?_⟩
      rw [hst]
      exact (Int.toNat_of_nonneg (by omega)).symm
  · intro A Arep M b x0 tol criteria normv sqrtq l m k hok
    by_cases hm : m < 1
    · simp [cr, hm] at hok
    · simp only [cr, hm, if_false] at hok
      by_cases h1 : criteria = "rr"
      · subst h1
        simp only [cr_solve, if_true, Except.ok.injEq] at hok
        subst hok
        obtain ⟨hh, hl⟩ := cr_go_history A M b x0 (vsub b (A x0)) (M (vsub b (A x0)))
          (M (vsub b (A x0))) tol "rr" normv
          (if normv b = 0 then 1 else normv b) 0 0
          (tol * if normv b = 0 then 1 else normv b) (normv (vsub b (A x0)))
          (normv (vsub b (A x0))) [normv (vsub b (A x0))] m.toNat (by omega) rfl
        refine ⟨hh, fun hst => hl ?_⟩
        rw [hst]
        exact (Int.toNat_of_nonneg (by omega)).symm
      · by_cases h2 : criteria = "rr+"
        · subst h2
          cases Arep with
          | other => simp [cr_solve] at hok
          | sparse d =>
            simp only [cr_solve] at hok
            rw [if_neg (show ¬ ("rr+" : String) = "rr" by decide)] at hok
            simp only [if_true, Except.ok.injEq] at hok
            subst hok
            obtain ⟨hh, hl⟩ := cr_go_history A M b x0 (vsub b (A x0)) (M (vsub b (A x0)))
              (M (vsub b (A x0))) tol "rr+" normv
              (if normv b = 0 then 1 else normv b) (normv d) 0
              (tol * (normv d * normv x0 + (if normv b = 0 then 1 else normv b)))
              (normv (vsub b (A x0))) (normv (vsub b (A x0)))
              [normv (vsub b (A x0))] m.toNat (by omega) rfl
            refine ⟨hh, fun hst => hl ?_⟩
            rw [hst]
            exact (Int.toNat_of_nonneg (by omega)).symm
          | ndarray e =>
            simp only [cr_solve] at hok
            rw [if_neg (show ¬ ("rr+" : String) = "rr" by decide)] at hok
            simp only [if_true, Except.ok.injEq] at hok
            subst hok
            obtain ⟨hh, hl⟩ := cr_go_history A M b x0 (vsub b (A x0)) (M (vsub b (A x0)))
              (M (vsub b (A x0))) tol "rr+" normv
              (if normv b = 0 then 1 else normv b) (normv e) 0
              (tol * (normv e * normv x0 + (if normv b = 0 then 1 else normv b)))
              (normv (vsub b (A x0))) (normv (vsub b (A x0)))
              [normv (vsub b (A x0))] m.toNat (by omega) rfl
            refine ⟨hh, fun hst => hl ?_⟩
            rw [hst]
            exact (Int.toNat_of_nonneg (by omega)).symm
        · by_cases h3 : criteria = "MrMr"
          · subst h3
            simp only [cr_solve] at hok
            rw [if_neg (show ¬ ("MrMr" : String) = "rr" by decide),
              if_neg (show ¬ ("MrMr" : String) = "rr+" by decide)] at hok
            simp only [if_true, Except.ok.injEq] at hok
            subst hok
            obtain ⟨hh, hl⟩ := cr_go_history A M b x0 (vsub b (A x0)) (M (vsub b (A x0)))
              (M (vsub b (A x0))) tol "MrMr" normv
              (if normv b = 0 then 1 else normv b) 0 (normv (M b))
              (tol * normv (M b)) (sqrtq (dotc (M (vsub b (A x0))) (M (vsub b (A x0)))))
              (normv (vsub b (A x0))) [normv (vsub b (A x0))] m.toNat (by omega) rfl
            refine ⟨hh, fun hst => hl ?_⟩
            rw [hst]
            exact (Int.toNat_of_nonneg (by omega)).symm
          · simp [cr_solve, h1, h2, h3] at hok

/-- Claim C7 witness: a `cg` call converging at setup has the initial
residual norm as its only history entry, and a `minimal_residual` call
exhausting `maxiter = 1` returns status 1 with exactly two history
entries. -/
theorem claim_C7_witness :
    cg idv idv [1] [1] 1 (some 3) sumabs [] = Except.ok ⟨[1], 0, [0], []⟩ ∧
      (⟨[1], 0, [0], []⟩ : KResult).res.head? = some (sumabs (vsub [1] (idv [1]))) ∧
      minimal_residual idv idv [1] [0] 1 (some 1) sumabs [] =
        Except.ok ⟨[1], 1, [1, 0], [[1]]⟩ ∧
      (⟨[1], 1, [1, 0], [[1]]⟩ : KResult).res.length = (1 : Int).toNat + 1 :=
  ⟨by with_unfolding_all rfl,
    (claim_C7_residual_history.1 idv idv [1] [1] 1 sumabs [] 3 ⟨[1], 0, [0], []⟩
      (by with_unfolding_all rfl)).1,
    by with_unfolding_all rfl,
    (claim_C7_residual_history.2.1 idv idv [1] [0] 1 sumabs [] 1 ⟨[1], 1, [1, 0], [[1]]⟩
      (by with_unfolding_all rfl)).2 rfl⟩

/-- Claim C8 counterexample: the claim as stated is false.  A `cg` call
given a residual-history list already containing the entry 5 does not
preserve it: the returned history is `[0]` (the initial residual norm
alone), so the pre-existing entry 5 is no longer present — its head is
not 5. -/
theorem claim_C8_counterexample :
    cg idv idv [1] [1] 1 (some 3) sumabs [5] = Except.ok ⟨[1], 0, [0], []⟩ ∧
      ([0] : List ℚ).head? ≠ some 5 :=
  ⟨by with_unfolding_all rfl, of_decide_eq_true (by with_unfolding_all rfl)⟩

/-- Claim C8 (amended): each solver does not append to the caller's
pre-existing residual-history entries but replaces them: the result is
independent of the list's prior contents (`residuals[:] = [normr]`
resets it), and the returned history always starts with the initial
residual norm, followed by the entries the solver appended. -/
theorem claim_C8_replaces_history :
    (∀ (A M : Qv → Qv) (b x0 : Qv) (tol : ℚ) (mi : Option Int) (normv : Qv → ℚ)
      (l : List ℚ), cg A M b x0 tol mi normv l = cg A M b x0 tol mi normv []) ∧
    (∀ (A M : Qv → Qv) (b x0 : Qv) (tol : ℚ) (mi : Option Int) (normv : Qv → ℚ)
      (l : List ℚ),
      minimal_residual A M b x0 tol mi normv l = minimal_residual A M b x0 tol mi normv []) ∧
    (∀ (A M : Qv → Qv) (b x0 : Qv) (tol : ℚ) (normA : Option ℚ) (mi : Option Int)
      (normv : Qv → ℚ) (l : List ℚ),
      steepest_descent A M b x0 tol normA mi normv l =
        steepest_descent A M b x0 tol normA mi normv []) ∧
    (∀ (A : Qv → Qv) (Arep : MatRep) (M : Qv → Qv) (b x0 : Qv) (tol : ℚ)
      (criteria : String) (mi : Option Int) (normv : Qv → ℚ) (sqrtq : ℚ → ℚ)
      (l : List ℚ),
      cr A Arep M b x0 tol criteria mi normv sqrtq l =
        cr A Arep M b x0 tol criteria mi normv sqrtq []) ∧
    (∀ (A M : Qv → Qv) (b x0 : Qv) (tol : ℚ) (normv : Qv → ℚ) (l : List ℚ) (m : Int)
      (k : KResult),
      cg A M b x0 tol (some m) normv l = Except.ok k →
      k.res.head? = some (normv (vsub b (A x0)))) ∧
    (∀ (A M : Qv → Qv) (b x0 : Qv) (tol : ℚ) (normv : Qv → ℚ) (l : List ℚ) (m : Int)
      (k : KResult),
      minimal_residual A M b x0 tol (some m) normv l = Except.ok k →
      k.res.head? = some (normv (M (vsub b (A x0))))) := by
  refine ⟨fun A M b x0 tol mi normv l => rfl, fun A M b x0 tol mi normv l => rfl,
    fun A M b x0 tol normA mi normv l => rfl,
    fun A Arep M b x0 tol criteria mi normv sqrtq l => rfl, ?_, ?_⟩
  · intro A M b x0 tol normv l m k hok
    by_cases hm : m < 1
    · simp [cg, hm] at hok
    · simp only [cg, hm, if_false, Except.ok.injEq] at hok
      subst hok
      exact (cg_solve_history A M b x0 tol normv m.toNat (by omega)).1
  · intro A M b x0 tol normv l m k hok
    by_cases hm : m < 1
    · simp [minimal_residual, hm] at hok
    · simp only [minimal_residual, hm, if_false, Except.ok.injEq] at hok
      subst hok
      exact (mr_solve_history A M b x0 tol normv m.toNat (by omega)).1

/-- Claim C8 witness: concrete instances — a `cg` call is insensitive to
the history list's prior contents, and its returned history starts with
the initial residual norm. -/
theorem claim_C8_witness :
    cg idv idv [1] [1] 1 (some 3) sumabs [5] = cg idv idv [1] [1] 1 (some 3) sumabs [] ∧
      cg idv idv [1] [1] 1 (some 3) sumabs [5] = Except.ok ⟨[1], 0, [0], []⟩ ∧
      (⟨[1], 0, [0], []⟩ : KResult).res.head? = some (sumabs (vsub [1] (idv [1]))) :=
  ⟨claim_C8_replaces_history.1 idv idv [1] [1] 1 (some 3) sumabs [5],
    by with_unfolding_all rfl,
    claim_C8_replaces_history.2.2.2.2.1 idv idv [1] [1] 1 sumabs [5] 3 ⟨[1], 0, [0], []⟩
      (by with_unfolding_all rfl)⟩

end PyamgKrylov
